import Mathlib

/-!
A shallow embedding of the Deno REPL (`cli/tools/repl.rs`) together with
proofs about its evaluation pipeline, input validator, tab completer,
syntax highlighter and driver loop.

Source text is modelled as `List Char` (one entry per character; the code
only ever slices at character boundaries in the situations the claims talk
about, so byte indices and character indices coincide in this model).
External collaborators — the inspector protocol, the SWC lexer/transpiler
and the terminal colour functions — are modelled as explicit oracle
functions passed to each definition, mirroring the requests the code sends.
-/

namespace DenoRepl

/-- Rust `char::is_whitespace`, modelled by Lean's `Char.isWhitespace`
(space, tab, carriage return, line feed — the whitespace that actually
occurs in REPL lines). -/
def isRustWhitespace (c : Char) : Bool :=
  c.isWhitespace

/-- Rust `str::trim_start`. -/
def trimStart (l : List Char) : List Char :=
  l.dropWhile isRustWhitespace

/-- Rust `str::trim_end`. -/
def trimEnd (l : List Char) : List Char :=
  (l.reverse.dropWhile isRustWhitespace).reverse

/-- The object-literal wrap decision of `evaluate_line_with_object_wrapping`:
`line.trim_start().starts_with('{') && !line.trim_end().ends_with(';')`. -/
def wrapDecision (line : List Char) : Bool :=
  ((trimStart line).head? == some ('{')) &&
    !((trimEnd line).getLast? == some (';'))

/-- Rust `format!("({})", &line)`. -/
def wrapLine (line : List Char) : List Char :=
  ('(') :: line ++ [')']

/-- A structured parse diagnostic (`crate::ast::Diagnostic`): the fields the
REPL reads when rendering a parse error. -/
structure Diagnostic where
  message : String
  line : Nat
  col : Nat
deriving DecidableEq

/-- The `AnyError` values that can surface on the REPL evaluation path:
either a downcastable parse `Diagnostic`, or any other (fatal) error. -/
inductive AnyError where
  | diagnostic (d : Diagnostic)
  | other (msg : String)
deriving DecidableEq

/-- The part of a `Runtime.evaluate` protocol response the REPL reads:
the `result` remote object and the optional `exceptionDetails`. -/
structure EvalResponse (V : Type) where
  result : V
  exceptionDetails : Option V
deriving DecidableEq

/-- The `evaluate_line_with_object_wrapping` pipeline step.  `evalTs` is an
oracle for `evaluate_ts_expression` (transpile + `Runtime.evaluate`).  Next
to the response we also return the list of expressions that were submitted
to `evalTs`, in order, so that theorems can speak about which evaluations
took place. -/
def evaluate_line_with_object_wrapping {V : Type}
    (evalTs : List Char → Except AnyError (EvalResponse V))
    (line : List Char) :
    Except AnyError (EvalResponse V) × List (List Char) :=
  let wrapped_line := if wrapDecision line then wrapLine line else line
  match evalTs wrapped_line with
  | Except.error e => (Except.error e, [wrapped_line])
  | Except.ok evaluate_response =>
      if evaluate_response.exceptionDetails.isSome && (wrapped_line != line)
      then (evalTs line, [wrapped_line, line])
      else (Except.ok evaluate_response, [wrapped_line])

/-- A `Runtime.callFunctionOn` protocol call as issued by the REPL's
bookkeeping helpers: the context-side setter source and the argument. -/
structure ProtocolCall (V : Type) where
  functionDeclaration : String
  argument : V
deriving DecidableEq

/-- The protocol call issued by `set_last_thrown_error`. -/
def set_last_thrown_error {V : Type} (error : V) : ProtocolCall V :=
  { functionDeclaration :=
      "function (object) \x7b Deno[Deno.internal].lastThrownError = object; \x7d"
    argument := error }

/-- The protocol call issued by `set_last_eval_result`. -/
def set_last_eval_result {V : Type} (evaluate_result : V) : ProtocolCall V :=
  { functionDeclaration :=
      "function (object) \x7b Deno[Deno.internal].lastEvalResult = object; \x7d"
    argument := evaluate_result }

/-- Rendering of a caught parse diagnostic:
`format!("{}: {} at {}:{}", colors::red("parse error"), message, line, col)`.
`red` is the terminal colour oracle. -/
def renderParseError (red : String → String) (d : Diagnostic) : String :=
  red ("parse error") ++ ": " ++ d.message ++ " at "
    ++ toString d.line ++ ":" ++ toString d.col

/-- The `evaluate_line_and_get_output` pipeline step.  `pretty` is an oracle
for `get_eval_value` (the context-side `Deno.inspectArgs` pretty-printer);
`red` is the colour oracle.  Next to the output we return the list of
binding-updating `Runtime.callFunctionOn` calls that were issued
(`set_last_thrown_error` / `set_last_eval_result`), in order. -/
def evaluate_line_and_get_output {V : Type}
    (evalTs : List Char → Except AnyError (EvalResponse V))
    (pretty : V → String) (red : String → String) (line : List Char) :
    Except AnyError String × List (ProtocolCall V) :=
  match (evaluate_line_with_object_wrapping evalTs line).1 with
  | Except.ok evaluate_response =>
      let evaluate_result := evaluate_response.result
      if evaluate_response.exceptionDetails.isSome then
        (Except.ok ("Uncaught " ++ pretty evaluate_result),
          [set_last_thrown_error evaluate_result])
      else
        (Except.ok (pretty evaluate_result),
          [set_last_eval_result evaluate_result])
  | Except.error err =>
      match err with
      | AnyError.diagnostic d => (Except.ok (renderParseError red d), [])
      | AnyError.other m => (Except.error (AnyError.other m), [])

/-! Validator (`impl Validator for EditorHelper`).  The SWC lexer is treated
as a black box producing a token stream; only the token shapes the
validator inspects are distinguished. -/

/-- The token shapes inspected by the validator: the bracket tokens, the
template-interpolation opener, the backtick, and everything else. -/
inductive Tok where
  | lparen
  | lbracket
  | lbrace
  | dollarLBrace
  | rparen
  | rbracket
  | rbrace
  | backQuote
  | other
deriving DecidableEq

/-- Openers pushed on the validator's stack. -/
def isOpener : Tok → Bool
  | Tok.lparen => true
  | Tok.lbracket => true
  | Tok.lbrace => true
  | Tok.dollarLBrace => true
  | _ => false

/-- Closers that pop the validator's stack. -/
def isCloser : Tok → Bool
  | Tok.rparen => true
  | Tok.rbracket => true
  | Tok.rbrace => true
  | _ => false

/-- The matched opener/closer pairs of the validator
(`LParen/RParen`, `LBracket/RBracket`, `LBrace/RBrace`,
`DollarLBrace/RBrace`). -/
def pairMatches : Tok → Tok → Bool
  | Tok.lparen, Tok.rparen => true
  | Tok.lbracket, Tok.rbracket => true
  | Tok.lbrace, Tok.rbrace => true
  | Tok.dollarLBrace, Tok.rbrace => true
  | _, _ => false

/-- The `Debug` rendering of a token, as interpolated by
`format!("Mismatched pairs: {:?} is not properly closed", left)`. -/
def tokDebugName : Tok → String
  | Tok.lparen => "LParen"
  | Tok.lbracket => "LBracket"
  | Tok.lbrace => "LBrace"
  | Tok.dollarLBrace => "DollarLBrace"
  | Tok.rparen => "RParen"
  | Tok.rbracket => "RBracket"
  | Tok.rbrace => "RBrace"
  | Tok.backQuote => "BackQuote"
  | Tok.other => "Other"

/-- The invalid-verdict message naming the unmatched opener. -/
def mismatchMessage (left : Tok) : String :=
  "Mismatched pairs: " ++ tokDebugName left ++ " is not properly closed"

/-- Rustyline's `ValidationResult`. -/
inductive ValidationResult where
  | valid (message : Option String)
  | incomplete
  | invalid (message : Option String)
deriving DecidableEq

/-- The validator's scan loop over the token stream, carrying the opener
stack and the template toggle; early returns are the `valid-with-no-info`
verdict on an unmatched closer and the `invalid` verdict on a mismatched
closer, exactly as in the source. -/
def validateTokens : List Tok → List Tok → Bool → ValidationResult
  | [], stack, in_template =>
      if !stack.isEmpty || in_template then ValidationResult.incomplete
      else ValidationResult.valid none
  | t :: rest, stack, in_template =>
      match t with
      | Tok.backQuote => validateTokens rest stack (!in_template)
      | Tok.lparen => validateTokens rest (Tok.lparen :: stack) in_template
      | Tok.lbracket => validateTokens rest (Tok.lbracket :: stack) in_template
      | Tok.lbrace => validateTokens rest (Tok.lbrace :: stack) in_template
      | Tok.dollarLBrace =>
          validateTokens rest (Tok.dollarLBrace :: stack) in_template
      | Tok.rparen =>
          match stack with
          | [] => ValidationResult.valid none
          | top :: stack' =>
              if pairMatches top Tok.rparen then validateTokens rest stack' in_template
              else ValidationResult.invalid (some (mismatchMessage top))
      | Tok.rbracket =>
          match stack with
          | [] => ValidationResult.valid none
          | top :: stack' =>
              if pairMatches top Tok.rbracket then validateTokens rest stack' in_template
              else ValidationResult.invalid (some (mismatchMessage top))
      | Tok.rbrace =>
          match stack with
          | [] => ValidationResult.valid none
          | top :: stack' =>
              if pairMatches top Tok.rbrace then validateTokens rest stack' in_template
              else ValidationResult.invalid (some (mismatchMessage top))
      | Tok.other => validateTokens rest stack in_template

/-- The validator entry point (`EditorHelper::validate`): scan the whole
token stream starting from an empty stack outside any template. -/
def validate (tokens : List Tok) : ValidationResult :=
  validateTokens tokens [] false

/-- Outcome of the specification-side scan over the token stream, following
the spec text: either the first anomaly (a closer mismatching the stack
top, or a closer on an empty stack), or the machine state left at the end
of the buffer. -/
inductive ScanOutcome where
  | mismatch (opener : Tok)
  | unmatchedCloser
  | finished (stack : List Tok) (inTemplate : Bool)
deriving DecidableEq

/-- Modelled from the spec: maintain a stack over opening
brackets/parens/braces/template-interpolation-openers and a toggle on
backtick tokens, and report the first anomaly or the end-of-buffer state. -/
def scanTokens : List Tok → List Tok → Bool → ScanOutcome
  | [], stack, in_template => ScanOutcome.finished stack in_template
  | t :: rest, stack, in_template =>
      if t = Tok.backQuote then scanTokens rest stack (!in_template)
      else if isOpener t then scanTokens rest (t :: stack) in_template
      else if isCloser t then
        match stack with
        | [] => ScanOutcome.unmatchedCloser
        | top :: stack' =>
            if pairMatches top t then scanTokens rest stack' in_template
            else ScanOutcome.mismatch top
      else scanTokens rest stack in_template

/-- The verdict the spec prescribes for each scan outcome: `Invalid` naming
the unmatched opener on a mismatch, `Valid` with no diagnostic on a closer
with an empty stack (deferred to the evaluator's parser), `Incomplete` when
the stack is non-empty or a template literal is open at end of buffer, and
`Valid` otherwise. -/
def validationSpec (tokens : List Tok) : ValidationResult :=
  match scanTokens tokens [] false with
  | ScanOutcome.mismatch opener =>
      ValidationResult.invalid (some (mismatchMessage opener))
  | ScanOutcome.unmatchedCloser => ValidationResult.valid none
  | ScanOutcome.finished stack inTemplate =>
      if !stack.isEmpty || inTemplate then ValidationResult.incomplete
      else ValidationResult.valid none

/-- Balanced token streams: every opener is matched by the corresponding
closer, with tokens that are neither openers nor closers freely
interleaved.  This is the independent, grammar-style notion of " all
brackets matched" used to state the claim. -/
inductive BalancedTokens : List Tok → Prop where
  | nil : BalancedTokens []
  | neutral (t : Tok) {rest : List Tok}
      (ho : isOpener t = false) (hc : isCloser t = false)
      (h : BalancedTokens rest) : BalancedTokens (t :: rest)
  | enclosed (o c : Tok) {inner rest : List Tok}
      (hm : pairMatches o c = true)
      (hi : BalancedTokens inner) (hr : BalancedTokens rest) :
      BalancedTokens (o :: inner ++ c :: rest)

/-- The template toggle left after folding the backtick toggle over a token
stream, starting from `b`. -/
def templateToggle (tokens : List Tok) (b : Bool) : Bool :=
  tokens.foldl (fun acc t => if t = Tok.backQuote then !acc else acc) b

/-! Driver loop (`run`).  One iteration: read a line, evaluate it, check
the closing flag, print, append history; afterwards persist history.  The
observable steps are recorded as a trace of actions. -/

/-- One result of `read_line_and_poll`, i.e. of `ReplEditor::readline`. -/
inductive ReplInput where
  | line (l : List Char)
  | interrupted
  | eof
  | readlineError
deriving DecidableEq

/-- The observable actions of the driver loop, in order. -/
inductive DriverAction where
  | evaluate (l : List Char)
  | checkClosing
  | print (s : String)
  | printHint
  | printReadlineError
  | addHistory (l : List Char)
  | saveHistory
deriving DecidableEq

/-- The driver loop of `run` over a finite stream of readline results.
`evalLine` is an oracle for `evaluate_line_and_get_output` (an `error`
is a fatal evaluation failure propagated by `?`); `closing` is an oracle
for the post-evaluation `is_closing` query.  Returns the trace of actions
together with `true` when the loop exited by `break`/end-of-stream (so
`save_history` still runs) and `false` when a fatal evaluation error
propagated out of `run`. -/
def replLoop (evalLine : List Char → Except AnyError String)
    (closing : List Char → Bool) :
    List ReplInput → List DriverAction × Bool
  | [] => ([], true)
  | ReplInput.line l :: rest =>
      match evalLine l with
      | Except.error _ => ([DriverAction.evaluate l], false)
      | Except.ok output =>
          if closing l then
            ([DriverAction.evaluate l, DriverAction.checkClosing], true)
          else
            let t := replLoop evalLine closing rest
            (DriverAction.evaluate l :: DriverAction.checkClosing ::
              DriverAction.print output :: DriverAction.addHistory l :: t.1,
              t.2)
  | ReplInput.interrupted :: rest =>
      let t := replLoop evalLine closing rest
      (DriverAction.printHint :: t.1, t.2)
  | ReplInput.eof :: _ => ([], true)
  | ReplInput.readlineError :: _ => ([DriverAction.printReadlineError], true)

/-- The whole driver (`run`): the loop, then `editor.save_history()` —
unless a fatal evaluation error propagated out first. -/
def replRun (evalLine : List Char → Except AnyError String)
    (closing : List Char → Bool) (inputs : List ReplInput) :
    List DriverAction :=
  let t := replLoop evalLine closing inputs
  if t.2 then t.1 ++ [DriverAction.saveHistory] else t.1

/-- A prefix of readline results after which the driver loop is still
running: every line in it evaluates without fatal error and without
setting the closing flag, and interrupts merely reprompt. -/
def loopContinues (evalLine : List Char → Except AnyError String)
    (closing : List Char → Bool) : List ReplInput → Bool
  | [] => true
  | ReplInput.line l :: rest =>
      (match evalLine l with
       | Except.ok _ => !closing l
       | Except.error _ => false) && loopContinues evalLine closing rest
  | ReplInput.interrupted :: rest => loopContinues evalLine closing rest
  | ReplInput.eof :: _ => false
  | ReplInput.readlineError :: _ => false

/-! Completion (`impl Completer for EditorHelper`,
`get_expr_from_line_at_pos`, `get_expression_property_names`). -/

/-- Rust `char::is_ascii_whitespace`: space, tab, newline, form feed,
carriage return. -/
def isAsciiWhitespace (c : Char) : Bool :=
  c = ' ' || c = '\t' || c = '\n' || c = '\x0c' || c = '\x0d'

/-- Rust `char::is_ascii_punctuation`: `U+0021..=U+002F`, `U+003A..=U+0040`,
`U+005B..=U+0060`, `U+007B..=U+007E`. -/
def isAsciiPunctuation (c : Char) : Bool :=
  (0x21 ≤ c.toNat && c.toNat ≤ 0x2f) || (0x3a ≤ c.toNat && c.toNat ≤ 0x40)
    || (0x5b ≤ c.toNat && c.toNat ≤ 0x60) || (0x7b ≤ c.toNat && c.toNat ≤ 0x7e)

/-- The REPL's `is_word_boundary`: `.` is never a boundary; otherwise ASCII
whitespace and ASCII punctuation are. -/
def is_word_boundary (c : Char) : Bool :=
  if c = '.' then false
  else isAsciiWhitespace c || isAsciiPunctuation c

/-- Index of the last element satisfying `p` (Rust `str::rfind` with a
char-predicate pattern). -/
def rfindIdx (p : Char → Bool) : List Char → Option Nat
  | [] => none
  | c :: rest =>
      match rfindIdx p rest with
      | some i => some (i + 1)
      | none => if p c then some 0 else none

/-- Rust slice `line[a..b]` (character indices). -/
def sliceList (l : List Char) (a b : Nat) : List Char :=
  (l.drop a).take (b - a)

/-- Rust `str::strip_prefix` with the `is_word_boundary` char-predicate
pattern, with `unwrap_or(word)`: drop one leading boundary character if
present. -/
def stripLeadingBoundary (word : List Char) : List Char :=
  match word with
  | [] => []
  | c :: rest => if is_word_boundary c then rest else c :: rest

/-- Rust `str::strip_suffix` with the `is_word_boundary` char-predicate
pattern, with `unwrap_or(word)`: drop one trailing boundary character if
present. -/
def stripTrailingBoundary (word : List Char) : List Char :=
  match word.getLast? with
  | some c => if is_word_boundary c then word.dropLast else word
  | none => word

/-- The REPL's `get_expr_from_line_at_pos`, verbatim: `start` is the
position of the last boundary before the cursor (or 0), `end` is
`cursor_pos + i` where `i` is the result of `rfind` over `line[cursor_pos..]`
(or `cursor_pos` when there is none), and one leading/trailing boundary
character is stripped from `line[start..end]`. -/
def get_expr_from_line_at_pos (line : List Char) (cursor_pos : Nat) :
    List Char :=
  let start :=
    match rfindIdx is_word_boundary (line.take cursor_pos) with
    | some i => i
    | none => 0
  let stop :=
    match rfindIdx is_word_boundary (line.drop cursor_pos) with
    | some i => cursor_pos + i
    | none => cursor_pos
  stripTrailingBoundary (stripLeadingBoundary (sliceList line start stop))

/-- The `Runtime.evaluate` request issued by
`get_expression_property_names`: the sub-expression, with
`throwOnSideEffect: true` and `timeout: 200`. -/
structure ProbeRequest where
  expression : List Char
  throwOnSideEffect : Bool
  timeout : Nat
deriving DecidableEq

/-- The part of the probe response the completer reads: whether
`exceptionDetails` is present, and the `result.objectId` if any. -/
structure ProbeResponse where
  hasExceptionDetails : Bool
  resultObjectId : Option Nat
deriving DecidableEq

/-- The REPL's `get_expression_property_names`.  `runtimeEvaluate` is the
protocol oracle for `Runtime.evaluate`; `getProperties` is the oracle for
`Runtime.getProperties` (`none` models a failed call or a response without
a `result`); property names are character lists like all other text.  An
exception in the probe, or a result without an object id, yields no
names. -/
def get_expression_property_names
    (runtimeEvaluate : ProbeRequest → ProbeResponse)
    (getProperties : Nat → Option (List (List Char)))
    (expr : List Char) : List (List Char) :=
  let resp := runtimeEvaluate
    { expression := expr, throwOnSideEffect := true, timeout := 200 }
  if resp.hasExceptionDetails then []
  else
    match resp.resultObjectId with
    | some objectId =>
        match getProperties objectId with
        | some names => names
        | none => []
    | none => []

/-- Rust `Vec::dedup`: remove consecutive repeated elements. -/
def dedupAdjacent : List (List Char) → List (List Char)
  | [] => []
  | [a] => [a]
  | a :: b :: rest =>
      if a = b then dedupAdjacent (b :: rest)
      else a :: dedupAdjacent (b :: rest)

/-- Lexicographic comparison of character lists, the order used by Rust's
`Vec::<String>::sort` (byte order and character order agree on the ASCII
names involved). -/
def charListLe : List Char → List Char → Bool
  | [], _ => true
  | _ :: _, [] => false
  | a :: as, b :: bs =>
      if a = b then charListLe as bs
      else decide (a ≤ b)

/-- The REPL's `EditorHelper::complete`: extract the expression at the
cursor; on a `.`, split at the last `.` and filter the sub-expression's
property names; otherwise merge `globalThis` properties with the global
lexical scope names (`lexicalNames` models the `names` array of the
`Runtime.globalLexicalScopeNames` response), filter by prefix, sort and
dedup.  Returns the replacement start position and the candidates. -/
def complete (runtimeEvaluate : ProbeRequest → ProbeResponse)
    (getProperties : Nat → Option (List (List Char)))
    (lexicalNames : List (List Char))
    (line : List Char) (pos : Nat) : Nat × List (List Char) :=
  let expr := get_expr_from_line_at_pos line pos
  match rfindIdx (fun c => c == '.') expr with
  | some index =>
      let sub_expr := expr.take index
      let prop_name := expr.drop (index + 1)
      let candidates :=
        (get_expression_property_names runtimeEvaluate getProperties
            sub_expr).filter
          (fun n => !((("Symbol(").toList).isPrefixOf n)
            && prop_name.isPrefixOf n)
      (pos - prop_name.length, candidates)
  | none =>
      let candidates :=
        ((get_expression_property_names runtimeEvaluate getProperties
            (("globalThis").toList)) ++ lexicalNames).filter
          (fun n => expr.isPrefixOf n)
      let sorted :=
        List.insertionSort (fun a b => charListLe a b = true) candidates
      (pos - expr.length, dedupAdjacent sorted)

/-! Highlighter (`impl Highlighter for EditorHelper`). -/

/-- The word shapes distinguished by the highlighter
(`swc_ecmascript::parser::token::Word`). -/
inductive WordTok where
  | wTrue
  | wFalse
  | wNull
  | keyword
  | ident (name : String)
deriving DecidableEq

/-- The token-or-comment shapes distinguished by the highlighter
(`crate::ast::TokenOrComment`). -/
inductive TokenOrComment where
  | strTok
  | templateTok
  | backQuoteTok
  | regexTok
  | numTok
  | bigIntTok
  | wordTok (w : WordTok)
  | otherTok
  | comment
deriving DecidableEq

/-- The terminal colour functions (`crate::colors`), as string
transformers. -/
structure Colors where
  green : List Char → List Char
  red : List Char → List Char
  yellow : List Char → List Char
  cyan : List Char → List Char
  gray : List Char → List Char

/-- The colour applied to each token/comment by `highlight`'s match:
strings/templates/backticks green, regexes red, numeric/bigint and
`true`/`false`/`null` yellow, keywords cyan, `undefined` gray,
`Infinity`/`NaN` yellow, `async`/`of` cyan, comments gray, everything else
unstyled. -/
def tokenColor (colors : Colors) : TokenOrComment → (List Char → List Char)
  | TokenOrComment.strTok => colors.green
  | TokenOrComment.templateTok => colors.green
  | TokenOrComment.backQuoteTok => colors.green
  | TokenOrComment.regexTok => colors.red
  | TokenOrComment.numTok => colors.yellow
  | TokenOrComment.bigIntTok => colors.yellow
  | TokenOrComment.wordTok w =>
      match w with
      | WordTok.wTrue => colors.yellow
      | WordTok.wFalse => colors.yellow
      | WordTok.wNull => colors.yellow
      | WordTok.keyword => colors.cyan
      | WordTok.ident name =>
          if name = "undefined" then colors.gray
          else if name = "Infinity" || name = "NaN" then colors.yellow
          else if name = "async" || name = "of" then colors.cyan
          else fun s => s
  | TokenOrComment.otherTok => fun s => s
  | TokenOrComment.comment => colors.gray

/-- A lexed item: the byte span (`item.span_as_range()`) and the
token-or-comment shape. -/
structure LexItem where
  spanStart : Nat
  spanEnd : Nat
  inner : TokenOrComment
deriving DecidableEq

/-- Rust `String::replace_range(a..b, r)`. -/
def replaceRange (l : List Char) (a b : Nat) (r : List Char) : List Char :=
  l.take a ++ r ++ l.drop b

/-- The body of `EditorHelper::highlight`'s loop: replace the item's span,
shifted by the running length offset (`out_line.len() - line.len()`), with
the colour-wrapped copy of the original span text. -/
def highlightStep (colors : Colors) (line : List Char)
    (out_line : List Char) (item : LexItem) : List Char :=
  let offset := out_line.length - line.length
  replaceRange out_line (item.spanStart + offset) (item.spanEnd + offset)
    (tokenColor colors item.inner
      (sliceList line item.spanStart item.spanEnd))

/-- The REPL's `EditorHelper::highlight`: fold the replacement step over
the lexed items, starting from the unmodified line. -/
def highlight (colors : Colors) (line : List Char) (items : List LexItem) :
    List Char :=
  items.foldl (highlightStep colors line) line

/-- The expected shape of the highlighted line: the original line's
segments in order, with each lexed span replaced by its coloured copy. -/
def renderHighlight (colors : Colors) (line : List Char) :
    Nat → List LexItem → List Char
  | lo, [] => line.drop lo
  | lo, item :: rest =>
      sliceList line lo item.spanStart
        ++ tokenColor colors item.inner
            (sliceList line item.spanStart item.spanEnd)
        ++ renderHighlight colors line item.spanEnd rest

/-- Well-formed lexer output: spans are in order, non-overlapping, and
within the line (which the SWC lexer guarantees). -/
def validSpansFrom (len : Nat) : Nat → List LexItem → Bool
  | _, [] => true
  | lo, item :: rest =>
      decide (lo ≤ item.spanStart) && decide (item.spanStart ≤ item.spanEnd)
        && decide (item.spanEnd ≤ len) && validSpansFrom len item.spanEnd rest

/-- A colour function that wraps its input between two fixed escape
sequences (every `crate::colors` style function has this shape). -/
def WrapsWith (f : List Char → List Char) (p q : List Char) : Prop :=
  ∀ s, f s = p ++ s ++ q

theorem wrapLine_ne (line : List Char) : wrapLine line ≠ line := by
  intro h
  have hlen := congrArg List.length h
  simp [wrapLine] at hlen
  omega

theorem wrapLine_bne (line : List Char) : (wrapLine line != line) = true := by
  simp [bne_iff_ne]
  exact wrapLine_ne line

/-- C1: if the trimmed line starts with a left brace and its trimmed end is
not a semicolon, the wrapped form `(<line>)` is evaluated first, and the
original line is evaluated exactly once more if and only if the wrapped
evaluation reports an exception; a line not of that shape is evaluated
as-is exactly once; never more than two evaluations happen. -/
theorem object_wrapping_retry {V : Type}
    (evalTs : List Char → Except AnyError (EvalResponse V))
    (line : List Char) :
    (evaluate_line_with_object_wrapping evalTs line).2.length ≤ 2
    ∧ (wrapDecision line = true →
        (evaluate_line_with_object_wrapping evalTs line).2.head?
            = some (wrapLine line)
        ∧ (∀ resp, evalTs (wrapLine line) = Except.ok resp →
            (resp.exceptionDetails.isSome = true →
              evaluate_line_with_object_wrapping evalTs line
                = (evalTs line, [wrapLine line, line]))
            ∧ (resp.exceptionDetails = none →
              evaluate_line_with_object_wrapping evalTs line
                = (Except.ok resp, [wrapLine line])))
        ∧ (∀ e, evalTs (wrapLine line) = Except.error e →
            evaluate_line_with_object_wrapping evalTs line
              = (Except.error e, [wrapLine line])))
    ∧ (wrapDecision line = false →
        evaluate_line_with_object_wrapping evalTs line
          = (evalTs line, [line])) := by
  unfold evaluate_line_with_object_wrapping
  by_cases hw : wrapDecision line = true
  · simp only [hw, if_true]
    cases hEv : evalTs (wrapLine line) with
    | error e =>
        refine ⟨by simp [hEv], ?_, ?_⟩
        · intro _
          refine ⟨by simp [hEv], ?_, ?_⟩
          · intro resp hresp
            cases hresp
          · intro e' he'
            cases he'
            simp
        · intro hfalse
          simp at hfalse
    | ok resp =>
        refine ⟨?_, ?_, ?_⟩
        · by_cases hex : resp.exceptionDetails.isSome = true
          · simp [hEv, hex, wrapLine_bne]
          · simp [hEv, hex]
        · intro _
          refine ⟨?_, ?_, ?_⟩
          · by_cases hex : resp.exceptionDetails.isSome = true
            · simp [hEv, hex, wrapLine_bne]
            · simp [hEv, hex]
          · intro resp' hresp'
            cases hresp'
            constructor
            · intro hex
              simp [hEv, hex, wrapLine_bne]
            · intro hex
              simp [hEv, hex]
          · intro e' he'
            cases he'
        · intro hfalse
          simp at hfalse
  · have hw' : wrapDecision line = false := by
      cases h : wrapDecision line
      · rfl
      · exact absurd h hw
    simp only [hw', Bool.false_eq_true, if_false]
    refine ⟨?_, ?_, ?_⟩
    · cases hEv : evalTs line with
      | error e => simp [hEv]
      | ok resp => by_cases hex : resp.exceptionDetails.isSome = true <;> simp [hEv, hex]
    · intro ht
      exact ht.elim
    · intro _
      cases hEv : evalTs line with
      | error e => simp [hEv]
      | ok resp => by_cases hex : resp.exceptionDetails.isSome = true <;> simp [hEv, hex]

/-- C2: on an evaluation response carrying exception details the thrown
value (the response's `result`) is stored via the context-side
`lastThrownError` setter and the output is the pretty-printed value
prefixed with `"Uncaught "`; without exception details the produced value
is stored via the `lastEvalResult` setter and the output has no prefix;
exactly one binding-updating protocol call is issued per evaluation. -/
theorem bookkeeping_and_display {V : Type}
    (evalTs : List Char → Except AnyError (EvalResponse V))
    (pretty : V → String) (red : String → String) (line : List Char)
    (resp : EvalResponse V)
    (h : (evaluate_line_with_object_wrapping evalTs line).1
        = Except.ok resp) :
    (resp.exceptionDetails.isSome = true →
      evaluate_line_and_get_output evalTs pretty red line
        = (Except.ok ("Uncaught " ++ pretty resp.result),
            [set_last_thrown_error resp.result]))
    ∧ (resp.exceptionDetails = none →
      evaluate_line_and_get_output evalTs pretty red line
        = (Except.ok (pretty resp.result),
            [set_last_eval_result resp.result]))
    ∧ (evaluate_line_and_get_output evalTs pretty red line).2.length
        = 1 := by
  unfold evaluate_line_and_get_output
  rw [h]
  refine ⟨?_, ?_, ?_⟩
  · intro hex
    simp [hex]
  · intro hex
    simp [hex]
  · by_cases hex : resp.exceptionDetails.isSome = true <;> simp [hex]

/-- C8: a structured parse diagnostic on the evaluation path is returned
as the rendered string `"parse error: <message> at <line>:<col>"` (so the
driver loop continues), while any other failure propagates as an error; in
the driver, a propagated evaluation error ends the loop at once, without
the closing check, output, history append or history save. -/
theorem parse_error_recovery {V : Type}
    (evalTs : List Char → Except AnyError (EvalResponse V))
    (pretty : V → String) (red : String → String) (line : List Char) :
    (∀ d, (evaluate_line_with_object_wrapping evalTs line).1
          = Except.error (AnyError.diagnostic d) →
        evaluate_line_and_get_output evalTs pretty red line
          = (Except.ok (renderParseError red d), []))
    ∧ (∀ m, (evaluate_line_with_object_wrapping evalTs line).1
          = Except.error (AnyError.other m) →
        evaluate_line_and_get_output evalTs pretty red line
          = (Except.error (AnyError.other m), []))
    ∧ (∀ d, renderParseError (fun s => s) d
        = "parse error: " ++ d.message ++ " at "
            ++ toString d.line ++ ":" ++ toString d.col)
    ∧ (∀ (evalLine : List Char → Except AnyError String)
          (closing : List Char → Bool) (l : List Char)
          (e : AnyError) (rest : List ReplInput),
        evalLine l = Except.error e →
        replRun evalLine closing (ReplInput.line l :: rest)
          = [DriverAction.evaluate l]) := by
  refine ⟨?_, ?_, ?_, ?_⟩
  · intro d hd
    unfold evaluate_line_and_get_output
    rw [hd]
  · intro m hm
    unfold evaluate_line_and_get_output
    rw [hm]
  · intro d
    rfl
  · intro evalLine closing l e rest he
    simp [replRun, replLoop, he]

/-- Processing a prefix after which the loop is still running just
prepends that prefix's actions. -/
theorem replLoop_append
    (evalLine : List Char → Except AnyError String)
    (closing : List Char → Bool) (pre suf : List ReplInput)
    (h : loopContinues evalLine closing pre = true) :
    replLoop evalLine closing (pre ++ suf)
      = ((replLoop evalLine closing pre).1
            ++ (replLoop evalLine closing suf).1,
         (replLoop evalLine closing suf).2) := by
  induction pre with
  | nil => simp [replLoop]
  | cons i rest ih =>
      cases i with
      | line l =>
          simp only [loopContinues] at h
          cases hEv : evalLine l with
          | error e =>
              rw [hEv] at h
              simp at h
          | ok out =>
              rw [hEv] at h
              simp at h
              obtain ⟨hnc, hrest⟩ := h
              simp [replLoop, hEv, hnc, ih hrest]
      | interrupted =>
          simp only [loopContinues] at h
          simp [replLoop, ih h]
      | eof => simp [loopContinues] at h
      | readlineError => simp [loopContinues] at h

/-- C4: a line whose evaluation sets the host's closed flag is first
evaluated and only then checked for closing; once closing is detected
nothing is printed for it, it is not appended to history, the loop ends
(no later input is processed), and the history file is still saved. -/
theorem close_ends_loop_without_output
    (evalLine : List Char → Except AnyError String)
    (closing : List Char → Bool) (pre rest : List ReplInput)
    (l : List Char) (out : String)
    (hpre : loopContinues evalLine closing pre = true)
    (hok : evalLine l = Except.ok out) (hclose : closing l = true) :
    replRun evalLine closing (pre ++ ReplInput.line l :: rest)
      = (replLoop evalLine closing pre).1
          ++ [DriverAction.evaluate l, DriverAction.checkClosing,
              DriverAction.saveHistory] := by
  unfold replRun
  rw [replLoop_append evalLine closing pre _ hpre]
  simp [replLoop, hok, hclose]

theorem validateTokens_eq_scan (ts : List Tok) :
    ∀ (stack : List Tok) (b : Bool),
    validateTokens ts stack b
      = (match scanTokens ts stack b with
         | ScanOutcome.mismatch opener =>
             ValidationResult.invalid (some (mismatchMessage opener))
         | ScanOutcome.unmatchedCloser => ValidationResult.valid none
         | ScanOutcome.finished st tmpl =>
             if !st.isEmpty || tmpl then ValidationResult.incomplete
             else ValidationResult.valid none) := by
  induction ts with
  | nil =>
      intro stack b
      rfl
  | cons t rest ih =>
      intro stack b
      cases t with
      | backQuote => simp [validateTokens, scanTokens, ih]
      | lparen => simp [validateTokens, scanTokens, isOpener, ih]
      | lbracket => simp [validateTokens, scanTokens, isOpener, ih]
      | lbrace => simp [validateTokens, scanTokens, isOpener, ih]
      | dollarLBrace => simp [validateTokens, scanTokens, isOpener, ih]
      | other => simp [validateTokens, scanTokens, isOpener, isCloser, ih]
      | rparen =>
          cases stack with
          | nil => simp [validateTokens, scanTokens, isOpener, isCloser]
          | cons top st' =>
              by_cases hm : pairMatches top Tok.rparen = true <;>
                simp [validateTokens, scanTokens, isOpener, isCloser, hm, ih]
      | rbracket =>
          cases stack with
          | nil => simp [validateTokens, scanTokens, isOpener, isCloser]
          | cons top st' =>
              by_cases hm : pairMatches top Tok.rbracket = true <;>
                simp [validateTokens, scanTokens, isOpener, isCloser, hm, ih]
      | rbrace =>
          cases stack with
          | nil => simp [validateTokens, scanTokens, isOpener, isCloser]
          | cons top st' =>
              by_cases hm : pairMatches top Tok.rbrace = true <;>
                simp [validateTokens, scanTokens, isOpener, isCloser, hm, ih]

theorem pairMatches_shapes :
    ∀ o c, pairMatches o c = true → isOpener o = true ∧ isCloser c = true := by
  intro o c
  cases o <;> cases c <;> decide

theorem opener_ne_backQuote :
    ∀ t, isOpener t = true → t ≠ Tok.backQuote := by
  intro t
  cases t <;> decide

theorem closer_ne_backQuote :
    ∀ t, isCloser t = true → t ≠ Tok.backQuote := by
  intro t
  cases t <;> decide

theorem validateTokens_opener (t : Tok) (h : isOpener t = true)
    (rest stack : List Tok) (b : Bool) :
    validateTokens (t :: rest) stack b
      = validateTokens rest (t :: stack) b := by
  cases t <;> first
    | rfl
    | simp [isOpener] at h

theorem validateTokens_closer_match (top t : Tok)
    (hm : pairMatches top t = true) (rest stack : List Tok) (b : Bool) :
    validateTokens (t :: rest) (top :: stack) b
      = validateTokens rest stack b := by
  cases t <;>
    first
      | (simp [validateTokens, hm]; done)
      | (cases top <;> simp [pairMatches] at hm)

theorem templateToggle_append (xs ys : List Tok) (b : Bool) :
    templateToggle (xs ++ ys) b = templateToggle ys (templateToggle xs b) := by
  simp [templateToggle, List.foldl_append]

theorem templateToggle_cons_nonbq (t : Tok) (h : t ≠ Tok.backQuote)
    (xs : List Tok) (b : Bool) :
    templateToggle (t :: xs) b = templateToggle xs b := by
  simp [templateToggle, h]

theorem templateToggle_cons_bq (xs : List Tok) (b : Bool) :
    templateToggle (Tok.backQuote :: xs) b = templateToggle xs (!b) := by
  simp [templateToggle]

theorem validateTokens_balanced {xs : List Tok} (hb : BalancedTokens xs) :
    ∀ (tail stack : List Tok) (b : Bool),
    validateTokens (xs ++ tail) stack b
      = validateTokens tail stack (templateToggle xs b) := by
  induction hb with
  | nil =>
      intro tail stack b
      simp [templateToggle]
  | @neutral t rest ho hc h ih =>
      intro tail stack b
      cases t with
      | backQuote =>
          rw [List.cons_append]
          show validateTokens (rest ++ tail) stack (!b) = _
          rw [ih tail stack (!b), templateToggle_cons_bq]
      | other =>
          rw [List.cons_append]
          show validateTokens (rest ++ tail) stack b = _
          rw [ih tail stack b,
            templateToggle_cons_nonbq Tok.other (by decide)]
      | lparen => simp [isOpener] at ho
      | lbracket => simp [isOpener] at ho
      | lbrace => simp [isOpener] at ho
      | dollarLBrace => simp [isOpener] at ho
      | rparen => simp [isCloser] at hc
      | rbracket => simp [isCloser] at hc
      | rbrace => simp [isCloser] at hc
  | @enclosed o c inner rest hm hi hr ih_inner ih_rest =>
      intro tail stack b
      have hshape := pairMatches_shapes o c hm
      have hassoc :
          (o :: inner ++ c :: rest) ++ tail
            = o :: (inner ++ (c :: (rest ++ tail))) := by
        simp
      rw [hassoc, validateTokens_opener o hshape.1,
        ih_inner (c :: (rest ++ tail)) (o :: stack) b,
        validateTokens_closer_match o c hm,
        ih_rest tail stack (templateToggle inner b)]
      rw [templateToggle_append,
        templateToggle_cons_nonbq o (opener_ne_backQuote o hshape.1),
        templateToggle_cons_nonbq c (closer_ne_backQuote c hshape.2)]

theorem templateToggle_parity (ts : List Tok) (b : Bool) :
    templateToggle ts b
      = xor b (decide (ts.count Tok.backQuote % 2 = 1)) := by
  induction ts generalizing b with
  | nil => simp [templateToggle]
  | cons t rest ih =>
      by_cases ht : t = Tok.backQuote
      · subst ht
        rw [templateToggle_cons_bq, ih]
        rcases Nat.mod_two_eq_zero_or_one (rest.count Tok.backQuote) with h | h <;>
          simp [List.count_cons, h, Nat.add_mod] <;>
          cases b <;> simp
      · rw [templateToggle_cons_nonbq t ht, ih]
        simp [List.count_cons, ht]

/-- C3: the validator's verdict coincides with the spec-side
classification of the scan outcome — `Invalid` naming the unmatched opener
on a mismatched closer, `Valid` with no diagnostic on a closer with an
empty stack, `Incomplete` when the stack is non-empty or a template
literal is open at end of buffer, `Valid` otherwise — and on any balanced
token stream with matched backticks the verdict is `Valid`. -/
theorem validator_verdicts (ts : List Tok) :
    validate ts = validationSpec ts
    ∧ (BalancedTokens ts → ts.count Tok.backQuote % 2 = 0 →
        validate ts = ValidationResult.valid none) := by
  constructor
  · exact validateTokens_eq_scan ts [] false
  · intro hb hcount
    have h := validateTokens_balanced hb [] [] false
    rw [List.append_nil] at h
    rw [validate, h, templateToggle_parity, hcount]
    simp [validateTokens]

theorem charListLe_total (a b : List Char) :
    charListLe a b = true ∨ charListLe b a = true := by
  induction a generalizing b with
  | nil => left; rfl
  | cons x xs ih =>
      cases b with
      | nil => right; rfl
      | cons y ys =>
          by_cases hxy : x = y
          · subst hxy
            rw [charListLe, if_pos rfl, charListLe, if_pos rfl]
            exact ih ys
          · rw [charListLe, if_neg hxy, charListLe,
              if_neg (fun h => hxy h.symm)]
            rcases le_total x y with h | h
            · left; exact decide_eq_true h
            · right; exact decide_eq_true h

theorem charListLe_antisymm (a b : List Char)
    (hab : charListLe a b = true) (hba : charListLe b a = true) :
    a = b := by
  induction a generalizing b with
  | nil =>
      cases b with
      | nil => rfl
      | cons y ys => exact absurd hba (by rw [charListLe]; simp)
  | cons x xs ih =>
      cases b with
      | nil => exact absurd hab (by rw [charListLe]; simp)
      | cons y ys =>
          by_cases hxy : x = y
          · subst hxy
            rw [charListLe, if_pos rfl] at hab
            rw [charListLe, if_pos rfl] at hba
            rw [ih ys hab hba]
          · rw [charListLe, if_neg hxy] at hab
            rw [charListLe, if_neg (fun h => hxy h.symm)] at hba
            exact absurd (le_antisymm (of_decide_eq_true hab)
              (of_decide_eq_true hba)) hxy

theorem charListLe_trans (a b c : List Char)
    (hab : charListLe a b = true) (hbc : charListLe b c = true) :
    charListLe a c = true := by
  induction a generalizing b c with
  | nil => rfl
  | cons x xs ih =>
      cases b with
      | nil => exact absurd hab (by rw [charListLe]; simp)
      | cons y ys =>
          cases c with
          | nil => exact absurd hbc (by rw [charListLe]; simp)
          | cons z zs =>
              by_cases hxy : x = y
              · subst hxy
                rw [charListLe, if_pos rfl] at hab
                by_cases hyz : x = z
                · subst hyz
                  rw [charListLe, if_pos rfl] at hbc
                  rw [charListLe, if_pos rfl]
                  exact ih ys zs hab hbc
                · rw [charListLe, if_neg hyz] at hbc
                  rw [charListLe, if_neg hyz]
                  exact hbc
              · rw [charListLe, if_neg hxy] at hab
                by_cases hyz : y = z
                · subst hyz
                  rw [charListLe, if_neg hxy]
                  exact hab
                · rw [charListLe, if_neg hyz] at hbc
                  have hxz : x ≤ z :=
                    le_trans (of_decide_eq_true hab) (of_decide_eq_true hbc)
                  by_cases hxz' : x = z
                  · subst hxz'
                    have hxy' := le_antisymm (of_decide_eq_true hab)
                      (of_decide_eq_true hbc)
                    exact absurd hxy' hxy
                  · rw [charListLe, if_neg hxz']
                    exact decide_eq_true hxz

instance : IsTotal (List Char) (fun a b => charListLe a b = true) :=
  ⟨charListLe_total⟩

instance : IsTrans (List Char) (fun a b => charListLe a b = true) :=
  ⟨charListLe_trans⟩

theorem mem_dedupAdjacent (x : List Char) (l : List (List Char)) :
    x ∈ dedupAdjacent l ↔ x ∈ l := by
  induction l with
  | nil => simp [dedupAdjacent]
  | cons a rest ih =>
      cases rest with
      | nil => simp [dedupAdjacent]
      | cons b rs =>
          by_cases hab : a = b
          · subst hab
            rw [dedupAdjacent, if_pos rfl, ih]
            simp only [List.mem_cons]
            tauto
          · rw [dedupAdjacent, if_neg hab]
            simp [ih]

theorem sorted_dedupAdjacent (l : List (List Char))
    (h : l.Sorted (fun a b => charListLe a b = true)) :
    (dedupAdjacent l).Sorted
      (fun a b => charListLe a b = true ∧ a ≠ b) := by
  induction l with
  | nil => simp [dedupAdjacent]
  | cons a rest ih =>
      cases rest with
      | nil => simp [dedupAdjacent]
      | cons b rs =>
          rw [List.sorted_cons] at h
          obtain ⟨ha, hrest⟩ := h
          by_cases hab : a = b
          · rw [dedupAdjacent, if_pos hab]
            exact ih hrest
          · rw [dedupAdjacent, if_neg hab]
            rw [List.sorted_cons]
            refine ⟨?_, ih hrest⟩
            intro x hx
            rw [mem_dedupAdjacent] at hx
            rcases List.mem_cons.mp hx with hxb | hxr
            · subst hxb
              exact ⟨ha x hx, hab⟩
            · have hbx : charListLe b x = true :=
                (List.sorted_cons.mp hrest).1 x hxr
              refine ⟨charListLe_trans a b x (ha b (by simp)) hbx, ?_⟩
              intro hax
              subst hax
              exact hab (charListLe_antisymm a b (ha b (by simp)) hbx)

/-- C7: for a completion run without a dot, the candidate list is the
union of `globalThis` property names and global lexical scope names,
filtered to those starting with the run, without duplicates and sorted;
the replacement range starts at `cursor - len(run)`. -/
theorem global_completion
    (runtimeEvaluate : ProbeRequest → ProbeResponse)
    (getProperties : Nat → Option (List (List Char)))
    (lexicalNames : List (List Char)) (line : List Char) (pos : Nat)
    (h : rfindIdx (fun c => c == '.') (get_expr_from_line_at_pos line pos)
        = none) :
    List.Sorted (fun a b => charListLe a b = true)
        (complete runtimeEvaluate getProperties lexicalNames line pos).2
    ∧ (complete runtimeEvaluate getProperties lexicalNames line pos).2.Nodup
    ∧ (∀ n,
        n ∈ (complete runtimeEvaluate getProperties lexicalNames line pos).2
          ↔ ((n ∈ get_expression_property_names runtimeEvaluate getProperties
                (("globalThis").toList)
              ∨ n ∈ lexicalNames)
            ∧ (get_expr_from_line_at_pos line pos).isPrefixOf n = true))
    ∧ (complete runtimeEvaluate getProperties lexicalNames line pos).1
        = pos - (get_expr_from_line_at_pos line pos).length := by
  have hs := List.sorted_insertionSort (fun a b => charListLe a b = true)
    (((get_expression_property_names runtimeEvaluate getProperties
        (("globalThis").toList)) ++ lexicalNames).filter
      (fun n => (get_expr_from_line_at_pos line pos).isPrefixOf n))
  refine ⟨?_, ?_, ?_, ?_⟩
  · simp only [complete]
    rw [h]
    exact List.Pairwise.imp (fun hab => hab.1)
      (sorted_dedupAdjacent _ hs)
  · simp only [complete]
    rw [h]
    exact List.Pairwise.imp (fun hab => hab.2)
      (sorted_dedupAdjacent _ hs)
  · intro n
    simp only [complete]
    rw [h]
    rw [mem_dedupAdjacent,
      (List.perm_insertionSort (fun a b => charListLe a b = true) _).mem_iff,
      List.mem_filter, List.mem_append]
  · simp only [complete]
    rw [h]

/-- C5 (amended): a completion run containing a dot is split at the last
dot; the left part is probed with `throwOnSideEffect` and a 200ms timeout
(and the probe depends only on that one request); candidates are the
returned property names filtered to those starting with the right part,
excluding symbol-named properties, in the order the property query
produced them (not sorted); the replacement range starts at
`cursor - len(right part)`; an exception in the probe yields no
candidates. -/
theorem dot_completion
    (runtimeEvaluate : ProbeRequest → ProbeResponse)
    (getProperties : Nat → Option (List (List Char)))
    (lexicalNames : List (List Char)) (line : List Char) (pos index : Nat)
    (h : rfindIdx (fun c => c == '.') (get_expr_from_line_at_pos line pos)
        = some index) :
    complete runtimeEvaluate getProperties lexicalNames line pos
      = (pos - ((get_expr_from_line_at_pos line pos).drop (index + 1)).length,
        (get_expression_property_names runtimeEvaluate getProperties
            ((get_expr_from_line_at_pos line pos).take index)).filter
          (fun n => !((("Symbol(").toList).isPrefixOf n)
            && ((get_expr_from_line_at_pos line pos).drop
                (index + 1)).isPrefixOf n))
    ∧ ((runtimeEvaluate
          { expression := (get_expr_from_line_at_pos line pos).take index,
            throwOnSideEffect := true,
            timeout := 200 }).hasExceptionDetails = true →
        (complete runtimeEvaluate getProperties lexicalNames line pos).2
          = [])
    ∧ (∀ runtimeEvaluate2 : ProbeRequest → ProbeResponse,
        runtimeEvaluate2
            { expression := (get_expr_from_line_at_pos line pos).take index,
              throwOnSideEffect := true, timeout := 200 }
          = runtimeEvaluate
            { expression := (get_expr_from_line_at_pos line pos).take index,
              throwOnSideEffect := true, timeout := 200 } →
        get_expression_property_names runtimeEvaluate2 getProperties
            ((get_expr_from_line_at_pos line pos).take index)
          = get_expression_property_names runtimeEvaluate getProperties
            ((get_expr_from_line_at_pos line pos).take index)) := by
  refine ⟨?_, ?_, ?_⟩
  · simp only [complete]
    rw [h]
  · intro hex
    simp only [complete]
    rw [h]
    simp only [get_expression_property_names]
    rw [hex]
    simp
  · intro runtimeEvaluate2 h2
    simp only [get_expression_property_names]
    rw [h2]

/-- C5 counterexample: completing `"foo.b"` (cursor at the end) with a
property query that returns `["baz", "bar"]` yields the candidates in
exactly that order — the dot branch of `complete` does not sort, so the
claimed "returned sorted" fails. -/
theorem dot_completion_unsorted :
    (complete
        (fun _ => { hasExceptionDetails := false, resultObjectId := some 0 })
        (fun _ => some ([("baz").toList, ("bar").toList])) []
        (("foo.b").toList) 5).2 = [("baz").toList, ("bar").toList]
    ∧ ¬ List.Sorted (fun a b => charListLe a b = true)
        ([("baz").toList, ("bar").toList]) := by
  constructor
  · decide
  · intro hs
    have h1 := (List.sorted_cons.mp hs).1 (("bar").toList) (by simp)
    revert h1
    decide

/-- C6 (code bug): at line `"ab cd ef"` and cursor position 0 the
extracted completion target is `"ab cd"`, which contains the internal
word boundary `' '` at position 2 — not the contiguous boundary-free run
touching the cursor (`"ab"`): the suffix computation uses `rfind` (the
last boundary after the cursor) where the claimed contiguous-run semantics
requires the first. -/
theorem completion_extract_spans_boundary :
    get_expr_from_line_at_pos (("ab cd ef").toList) 0 = ("ab cd").toList
    ∧ is_word_boundary ' ' = true
    ∧ (("ab cd").toList).get? 2 = some (' ') := by
  decide

theorem take_append_exact {α : Type} (l₁ l₂ : List α) (i : Nat) :
    (l₁ ++ l₂).take (l₁.length + i) = l₁ ++ l₂.take i := by
  induction l₁ with
  | nil => simp
  | cons a l ih =>
      have h : (a :: l).length + i = (l.length + i) + 1 := by
        simp
        omega
      rw [List.cons_append, h, List.take_succ_cons, ih, List.cons_append]

theorem drop_append_exact {α : Type} (l₁ l₂ : List α) (i : Nat) :
    (l₁ ++ l₂).drop (l₁.length + i) = l₂.drop i := by
  induction l₁ with
  | nil => simp
  | cons a l ih =>
      have h : (a :: l).length + i = (l.length + i) + 1 := by
        simp
        omega
      rw [List.cons_append, h, List.drop_succ_cons, ih]

theorem sliceList_length (l : List Char) (a b : Nat) (hab : a ≤ b)
    (hb : b ≤ l.length) : (sliceList l a b).length = b - a := by
  simp [sliceList]
  omega

theorem sliceList_append_drop (l : List Char) (a b : Nat) (hab : a ≤ b)
    (hb : b ≤ l.length) : sliceList l a b ++ l.drop b = l.drop a := by
  have hdd : l.drop b = (l.drop a).drop (b - a) := by
    rw [List.drop_drop]
    congr 1
    omega
  rw [sliceList, hdd, List.take_append_drop]

theorem tokenColor_wraps (colors : Colors)
    (gp gq rp rq yp yq cp cq ap aq : List Char)
    (hg : WrapsWith colors.green gp gq) (hr : WrapsWith colors.red rp rq)
    (hy : WrapsWith colors.yellow yp yq) (hc : WrapsWith colors.cyan cp cq)
    (ha : WrapsWith colors.gray ap aq) :
    ∀ t, ∃ p q, WrapsWith (tokenColor colors t) p q := by
  intro t
  cases t with
  | strTok => exact ⟨gp, gq, hg⟩
  | templateTok => exact ⟨gp, gq, hg⟩
  | backQuoteTok => exact ⟨gp, gq, hg⟩
  | regexTok => exact ⟨rp, rq, hr⟩
  | numTok => exact ⟨yp, yq, hy⟩
  | bigIntTok => exact ⟨yp, yq, hy⟩
  | otherTok => exact ⟨[], [], fun s => by simp [tokenColor]⟩
  | comment => exact ⟨ap, aq, ha⟩
  | wordTok w =>
      cases w with
      | wTrue => exact ⟨yp, yq, hy⟩
      | wFalse => exact ⟨yp, yq, hy⟩
      | wNull => exact ⟨yp, yq, hy⟩
      | keyword => exact ⟨cp, cq, hc⟩
      | ident name =>
          simp only [tokenColor]
          split
          · exact ⟨ap, aq, ha⟩
          · split
            · exact ⟨yp, yq, hy⟩
            · split
              · exact ⟨cp, cq, hc⟩
              · exact ⟨[], [], fun s => by simp⟩


theorem tokenColor_id (colors : Colors)
    (hg : ∀ s, colors.green s = s) (hr : ∀ s, colors.red s = s)
    (hy : ∀ s, colors.yellow s = s) (hc : ∀ s, colors.cyan s = s)
    (ha : ∀ s, colors.gray s = s) :
    ∀ t s, tokenColor colors t s = s := by
  intro t s
  cases t with
  | strTok => exact hg s
  | templateTok => exact hg s
  | backQuoteTok => exact hg s
  | regexTok => exact hr s
  | numTok => exact hy s
  | bigIntTok => exact hy s
  | otherTok => rfl
  | comment => exact ha s
  | wordTok w =>
      cases w with
      | wTrue => exact hy s
      | wFalse => exact hy s
      | wNull => exact hy s
      | keyword => exact hc s
      | ident name =>
          simp only [tokenColor]
          split
          · exact ha s
          · split
            · exact hy s
            · split
              · exact hc s
              · rfl

theorem highlightStep_eq (colors : Colors) (line : List Char)
    (item : LexItem) (R : List Char) (lo : Nat)
    (hlos : lo ≤ item.spanStart) (hse : item.spanStart ≤ item.spanEnd)
    (hel : item.spanEnd ≤ line.length) (hlo : lo ≤ line.length)
    (hR : lo ≤ R.length) :
    highlightStep colors line (R ++ line.drop lo) item
      = (R ++ sliceList line lo item.spanStart
          ++ tokenColor colors item.inner
              (sliceList line item.spanStart item.spanEnd))
        ++ line.drop item.spanEnd := by
  have hlen : (R ++ line.drop lo).length = R.length + (line.length - lo) := by
    simp
  have hofs : (R ++ line.drop lo).length - line.length = R.length - lo := by
    rw [hlen]
    omega
  have hs : item.spanStart + ((R ++ line.drop lo).length - line.length)
      = R.length + (item.spanStart - lo) := by
    rw [hofs]
    omega
  have he : item.spanEnd + ((R ++ line.drop lo).length - line.length)
      = R.length + (item.spanEnd - lo) := by
    rw [hofs]
    omega
  rw [highlightStep]
  rw [replaceRange, hs, he, take_append_exact, drop_append_exact]
  have htake : (line.drop lo).take (item.spanStart - lo)
      = sliceList line lo item.spanStart := rfl
  have hdrop : (line.drop lo).drop (item.spanEnd - lo)
      = line.drop item.spanEnd := by
    rw [List.drop_drop]
    congr 1
    omega
  rw [htake, hdrop]

theorem highlight_fold (colors : Colors) (line : List Char)
    (hwrap : ∀ t, ∃ p q, WrapsWith (tokenColor colors t) p q) :
    ∀ (items : List LexItem) (lo : Nat) (R : List Char),
    validSpansFrom line.length lo items = true →
    lo ≤ line.length → lo ≤ R.length →
    List.foldl (highlightStep colors line) (R ++ line.drop lo) items
      = R ++ renderHighlight colors line lo items := by
  intro items
  induction items with
  | nil =>
      intro lo R hv hlo hR
      simp [renderHighlight]
  | cons item rest ih =>
      intro lo R hv hlo hR
      simp only [validSpansFrom, Bool.and_eq_true, decide_eq_true_eq] at hv
      obtain ⟨⟨⟨h1, h2⟩, h3⟩, hv'⟩ := hv
      rw [List.foldl_cons,
        highlightStep_eq colors line item R lo h1 h2 h3 hlo hR]
      obtain ⟨p, q, hpq⟩ := hwrap item.inner
      have hslen1 : (sliceList line lo item.spanStart).length
          = item.spanStart - lo :=
        sliceList_length line lo item.spanStart h1 (le_trans h2 h3)
      have hslen2 : (sliceList line item.spanStart item.spanEnd).length
          = item.spanEnd - item.spanStart :=
        sliceList_length line item.spanStart item.spanEnd h2 h3
      have hRlen :
          (R ++ sliceList line lo item.spanStart
            ++ tokenColor colors item.inner
                (sliceList line item.spanStart item.spanEnd)).length
            ≥ item.spanEnd := by
        rw [hpq]
        simp only [List.length_append, hslen1, hslen2]
        omega
      rw [ih item.spanEnd _ hv' h3 hRlen]
      rw [renderHighlight]
      simp [List.append_assoc]

theorem renderHighlight_id (colors : Colors) (line : List Char)
    (hid : ∀ t s, tokenColor colors t s = s) :
    ∀ (items : List LexItem) (lo : Nat),
    validSpansFrom line.length lo items = true →
    renderHighlight colors line lo items = line.drop lo := by
  intro items
  induction items with
  | nil =>
      intro lo hv
      rfl
  | cons item rest ih =>
      intro lo hv
      simp only [validSpansFrom, Bool.and_eq_true, decide_eq_true_eq] at hv
      obtain ⟨⟨⟨h1, h2⟩, h3⟩, hv'⟩ := hv
      rw [renderHighlight, hid, ih item.spanEnd hv', List.append_assoc,
        sliceList_append_drop line item.spanStart item.spanEnd h2 h3,
        sliceList_append_drop line lo item.spanStart h1 (le_trans h2 h3)]

theorem sublist_wrap {α : Type} (x p q : List α) : List.Sublist x (p ++ x ++ q) := by
  have h1 : List.Sublist x (x ++ q) := List.sublist_append_left x q
  have h2 : List.Sublist (x ++ q) (p ++ (x ++ q)) :=
    List.sublist_append_right p (x ++ q)
  have h3 := List.Sublist.trans h1 h2
  rw [← List.append_assoc] at h3
  exact h3

theorem renderHighlight_sublist (colors : Colors) (line : List Char)
    (hwrap : ∀ t, ∃ p q, WrapsWith (tokenColor colors t) p q) :
    ∀ (items : List LexItem) (lo : Nat),
    validSpansFrom line.length lo items = true → lo ≤ line.length →
    List.Sublist (line.drop lo) (renderHighlight colors line lo items) := by
  intro items
  induction items with
  | nil =>
      intro lo hv hlo
      exact List.Sublist.refl _
  | cons item rest ih =>
      intro lo hv hlo
      simp only [validSpansFrom, Bool.and_eq_true, decide_eq_true_eq] at hv
      obtain ⟨⟨⟨h1, h2⟩, h3⟩, hv'⟩ := hv
      obtain ⟨p, q, hpq⟩ := hwrap item.inner
      rw [renderHighlight, hpq]
      have hsplit : line.drop lo
          = sliceList line lo item.spanStart
            ++ (sliceList line item.spanStart item.spanEnd
              ++ line.drop item.spanEnd) := by
        rw [sliceList_append_drop line item.spanStart item.spanEnd h2 h3,
          sliceList_append_drop line lo item.spanStart h1 (le_trans h2 h3)]
      rw [hsplit, List.append_assoc]
      refine List.Sublist.append (List.Sublist.refl _) ?_
      refine List.Sublist.append ?_ (ih item.spanEnd hv' h3)
      exact sublist_wrap (sliceList line item.spanStart item.spanEnd) p q

/-- C10: with well-formed lexer spans and wrap-shaped colour functions,
highlighting renders exactly the original line's segments in order with
colour wrappers inserted around the lexed spans; consequently the original
line is a subsequence of the output (its characters unchanged and in
order), and when every colour function is the identity the output equals
the input. -/
theorem highlight_preserves_line (colors : Colors) (line : List Char)
    (items : List LexItem) (gp gq rp rq yp yq cp cq ap aq : List Char)
    (hg : WrapsWith colors.green gp gq) (hr : WrapsWith colors.red rp rq)
    (hy : WrapsWith colors.yellow yp yq) (hc : WrapsWith colors.cyan cp cq)
    (ha : WrapsWith colors.gray ap aq)
    (hspans : validSpansFrom line.length 0 items = true) :
    highlight colors line items = renderHighlight colors line 0 items
    ∧ List.Sublist line (highlight colors line items)
    ∧ ((∀ s, colors.green s = s) → (∀ s, colors.red s = s) →
        (∀ s, colors.yellow s = s) → (∀ s, colors.cyan s = s) →
        (∀ s, colors.gray s = s) →
        highlight colors line items = line) := by
  have hwrap := tokenColor_wraps colors gp gq rp rq yp yq cp cq ap aq
    hg hr hy hc ha
  have hmain : highlight colors line items
      = renderHighlight colors line 0 items := by
    have h := highlight_fold colors line hwrap items 0 []
      hspans (Nat.zero_le _) (Nat.zero_le _)
    simpa [highlight] using h
  refine ⟨hmain, ?_, ?_⟩
  · rw [hmain]
    have h := renderHighlight_sublist colors line hwrap items 0
      hspans (Nat.zero_le _)
    simpa using h
  · intro hg' hr' hy' hc' ha'
    rw [hmain]
    have h := renderHighlight_id colors line
      (tokenColor_id colors hg' hr' hy' hc' ha') items 0 hspans
    simpa using h

/-- Witness for C1: a concrete brace-line whose wrapped evaluation throws,
so the original line is evaluated once more. -/
theorem object_wrapping_retry_witness :
    wrapDecision (['{', 'a', '}']) = true
    ∧ evaluate_line_with_object_wrapping
        (fun s => if s = wrapLine (['{', 'a', '}'])
          then Except.ok { result := (0 : Nat), exceptionDetails := some 0 }
          else Except.ok { result := 1, exceptionDetails := none })
        (['{', 'a', '}'])
      = ((fun s => if s = wrapLine (['{', 'a', '}'])
          then Except.ok { result := (0 : Nat), exceptionDetails := some 0 }
          else Except.ok { result := 1, exceptionDetails := none })
          (['{', 'a', '}']),
        [wrapLine (['{', 'a', '}']), ['{', 'a', '}']]) := by
  constructor
  · decide
  · exact (((object_wrapping_retry
      (fun s => if s = wrapLine (['{', 'a', '}'])
        then Except.ok { result := (0 : Nat), exceptionDetails := some 0 }
        else Except.ok { result := 1, exceptionDetails := none })
      (['{', 'a', '}'])).2.1 (by decide)).2.1
      { result := (0 : Nat), exceptionDetails := some 0 } rfl).1
      rfl

/-- Witness for C2: a concrete successful evaluation updates exactly the
success-tracking binding and prints without prefix. -/
theorem bookkeeping_and_display_witness :
    (evaluate_line_with_object_wrapping
        (fun _ => Except.ok { result := (5 : Nat), exceptionDetails := none })
        (['x'])).1
      = Except.ok { result := (5 : Nat), exceptionDetails := none }
    ∧ evaluate_line_and_get_output
        (fun _ => Except.ok { result := (5 : Nat), exceptionDetails := none })
        (fun _ => ("five")) (fun s => s) (['x'])
      = (Except.ok ("five"), [set_last_eval_result (5 : Nat)]) := by
  refine ⟨rfl, ?_⟩
  exact (bookkeeping_and_display
    (fun _ => Except.ok { result := (5 : Nat), exceptionDetails := none })
    (fun _ => ("five")) (fun s => s) (['x'])
    { result := (5 : Nat), exceptionDetails := none } rfl).2.1 rfl

/-- Witness for C3: a balanced brace pair validates as `Valid` and agrees
with the spec-side classification. -/
theorem validator_verdicts_witness :
    validate ([Tok.lbrace, Tok.other, Tok.rbrace])
      = validationSpec ([Tok.lbrace, Tok.other, Tok.rbrace])
    ∧ validate ([Tok.lbrace, Tok.other, Tok.rbrace])
      = ValidationResult.valid none := by
  constructor
  · exact (validator_verdicts ([Tok.lbrace, Tok.other, Tok.rbrace])).1
  · refine (validator_verdicts ([Tok.lbrace, Tok.other, Tok.rbrace])).2
      ?_ (by decide)
    exact BalancedTokens.enclosed Tok.lbrace Tok.rbrace (by decide)
      (BalancedTokens.neutral Tok.other (by decide) (by decide)
        BalancedTokens.nil)
      BalancedTokens.nil

/-- Witness for C4: after one ordinary line, a closing line is evaluated,
checked, not printed, not added to history, and history is saved. -/
theorem close_ends_loop_witness :
    loopContinues (fun _ => Except.ok ("2")) (fun l => l == ['c'])
        ([ReplInput.line (['x'])]) = true
    ∧ replRun (fun _ => Except.ok ("2")) (fun l => l == ['c'])
        ([ReplInput.line (['x'])]
          ++ ReplInput.line (['c']) :: [ReplInput.line (['y'])])
      = (replLoop (fun _ => Except.ok ("2")) (fun l => l == ['c'])
          ([ReplInput.line (['x'])])).1
        ++ [DriverAction.evaluate (['c']), DriverAction.checkClosing,
            DriverAction.saveHistory] := by
  constructor
  · rfl
  · exact close_ends_loop_without_output
      (fun _ => Except.ok ("2")) (fun l => l == ['c'])
      ([ReplInput.line (['x'])]) ([ReplInput.line (['y'])])
      (['c']) ("2") rfl rfl rfl

/-- Witness for C5 (amended): completing `"foo.b"` against a single
property `"bar"` returns it with replacement start 4. -/
theorem dot_completion_witness :
    rfindIdx (fun c => c == '.')
        (get_expr_from_line_at_pos (("foo.b").toList) 5) = some 3
    ∧ complete
        (fun _ => { hasExceptionDetails := false, resultObjectId := some 0 })
        (fun _ => some ([("bar").toList])) [] (("foo.b").toList) 5
      = (4, [("bar").toList]) := by
  constructor
  · decide
  · exact ((dot_completion
      (fun _ => { hasExceptionDetails := false, resultObjectId := some 0 })
      (fun _ => some ([("bar").toList])) [] (("foo.b").toList) 5 3
      (by decide)).1).trans (by decide)

/-- Witness for C7: a dotless run `"gl"` merges `globalThis` properties
with lexical names, sorted, with replacement start `cursor - len(run)`. -/
theorem global_completion_witness :
    rfindIdx (fun c => c == '.')
        (get_expr_from_line_at_pos (("gl").toList) 2) = none
    ∧ List.Sorted (fun a b => charListLe a b = true)
        (complete
          (fun _ => { hasExceptionDetails := false, resultObjectId := some 0 })
          (fun _ => some ([("globalFn").toList])) [("glo").toList]
          (("gl").toList) 2).2
    ∧ (complete
          (fun _ => { hasExceptionDetails := false, resultObjectId := some 0 })
          (fun _ => some ([("globalFn").toList])) [("glo").toList]
          (("gl").toList) 2).1
        = 2 - (get_expr_from_line_at_pos (("gl").toList) 2).length := by
  refine ⟨by decide, ?_, ?_⟩
  · exact (global_completion
      (fun _ => { hasExceptionDetails := false, resultObjectId := some 0 })
      (fun _ => some ([("globalFn").toList])) [("glo").toList]
      (("gl").toList) 2 (by decide)).1
  · exact (global_completion
      (fun _ => { hasExceptionDetails := false, resultObjectId := some 0 })
      (fun _ => some ([("globalFn").toList])) [("glo").toList]
      (("gl").toList) 2 (by decide)).2.2.2

/-- Witness for C8: a concrete parse diagnostic is rendered inline as a
successful output. -/
theorem parse_error_recovery_witness :
    (evaluate_line_with_object_wrapping
        (fun _ => (Except.error
          (AnyError.diagnostic { message := ("m"), line := 1, col := 2 })
          : Except AnyError (EvalResponse Nat)))
        (['x'])).1
      = Except.error
          (AnyError.diagnostic { message := ("m"), line := 1, col := 2 })
    ∧ evaluate_line_and_get_output
        (fun _ => (Except.error
          (AnyError.diagnostic { message := ("m"), line := 1, col := 2 })
          : Except AnyError (EvalResponse Nat)))
        (fun _ => ("")) (fun s => s) (['x'])
      = (Except.ok ("parse error: m at 1:2"), []) := by
  refine ⟨rfl, ?_⟩
  exact ((parse_error_recovery
    (fun _ => (Except.error
      (AnyError.diagnostic { message := ("m"), line := 1, col := 2 })
      : Except AnyError (EvalResponse Nat)))
    (fun _ => ("")) (fun s => s) (['x'])).1
    { message := ("m"), line := 1, col := 2 } rfl).trans (by rfl)

/-- Witness for C10: highlighting one string token wraps exactly its span
and leaves the remaining character untouched. -/
theorem highlight_preserves_line_witness :
    validSpansFrom ((['a', '+']).length) 0
        ([{ spanStart := 0, spanEnd := 1,
            inner := TokenOrComment.strTok }]) = true
    ∧ highlight
        { green := fun s => ('[') :: s ++ [']'], red := fun s => s,
          yellow := fun s => s, cyan := fun s => s, gray := fun s => s }
        (['a', '+'])
        ([{ spanStart := 0, spanEnd := 1, inner := TokenOrComment.strTok }])
      = ['[', 'a', ']', '+'] := by
  constructor
  · decide
  · exact ((highlight_preserves_line
      { green := fun s => ('[') :: s ++ [']'], red := fun s => s,
        yellow := fun s => s, cyan := fun s => s, gray := fun s => s }
      (['a', '+'])
      ([{ spanStart := 0, spanEnd := 1, inner := TokenOrComment.strTok }])
      (['[']) ([']']) [] [] [] [] [] [] [] []
      (fun s => rfl) (fun s => by simp) (fun s => by simp)
      (fun s => by simp) (fun s => by simp) (by decide)).1).trans
      (by decide)

end DenoRepl
